import Mathlib

/-!
Shallow embedding of `MnasNet.py` (luogen1996/MNASNet-pytorch).

The file models the two classes of the source, `InvertedResidual` and
`MnasNet`, as Lean data: every `torch.nn` primitive the source constructs
becomes a `Layer` descriptor carrying exactly the constructor arguments the
source passes, and the two Python constructors become Lean functions
returning `Except` (the source `assert` statements become the error case).
Forward evaluation is interpreted over an arbitrary carrier type through an
`Interp` record, since the tensor primitives themselves (convolution, batch
normalization, activation, pooling, linear) are external black boxes.

The external regularization component (`DropBlockScheduled` / `DropBlock2D`,
imported by the source but not part of this repository's source tree) is
represented by the argument record the source passes to its constructor,
and its forward behaviour is modelled from the spec where a claim needs it.
-/

/-- Python `int()` applied to a real value: truncation toward zero.
This is the conversion the source applies in `int(c * width_mult)` and
`int(1280 * width_mult)`. -/
def pyInt (q : ℚ) : ℤ := if 0 ≤ q then ⌊q⌋ else ⌈q⌉

/-- `output_channel = int(c * width_mult)` (MnasNet.py, architecture loop);
the same conversion is used for `int(32 * width_mult)` and
`int(1280 * width_mult)`. Channels are used as naturals. -/
def output_channel (c : ℕ) (width_mult : ℚ) : ℕ := (pyInt ((c : ℚ) * width_mult)).toNat

/-- `self.last_channel = int(1280 * width_mult) if width_mult > 1.0 else 1280`
(MnasNet.py, `MnasNet.__init__`). -/
def last_channel_py (width_mult : ℚ) : ℕ :=
  if 1 < width_mult then output_channel 1280 width_mult else 1280

/-- Constructor-argument record of one scheduled regularization tap:
`DropBlockScheduled(DropBlock2D(drop_prob=d, block_size=b), start_value, stop_value, nr_steps)`. -/
structure DropSchedCfg where
  drop_prob : ℚ
  block_size : ℕ
  start_value : ℚ
  stop_value : ℚ
  nr_steps : ℕ
deriving DecidableEq

/-- The tap every call site of the source constructs:
`DropBlockScheduled(DropBlock2D(drop_prob=drop_prob, block_size=7),
start_value=0., stop_value=drop_prob, nr_steps=num_steps)`. -/
def dropTap (drop_prob : ℚ) (num_steps : ℕ) : DropSchedCfg :=
  { drop_prob := drop_prob, block_size := 7, start_value := 0,
    stop_value := drop_prob, nr_steps := num_steps }

/-- One primitive module as constructed by the source, carrying exactly the
arguments of the corresponding `torch.nn` constructor call. -/
inductive Layer where
  | conv2d (inp oup kernel stride padding groups : ℕ) (bias : Bool)
  | batchNorm (ch : ℕ)
  | activation
  | dropSched (cfg : DropSchedCfg)
  | adaptiveAvgPool (output_size : ℕ)
  | dropout (p : ℚ)
  | linear (in_features out_features : ℕ)
deriving DecidableEq

/-- `Conv_3x3(inp, oup, stride)` of the source:
`Conv2d(inp, oup, 3, stride, 1, bias=False)`, `BatchNorm2d(oup)`, activation. -/
def Conv_3x3 (inp oup stride : ℕ) : List Layer :=
  [Layer.conv2d inp oup 3 stride 1 1 false, Layer.batchNorm oup, Layer.activation]

/-- `Conv_1x1(inp, oup)` of the source:
`Conv2d(inp, oup, 1, 1, 0, bias=False)`, `BatchNorm2d(oup)`, activation. -/
def Conv_1x1 (inp oup : ℕ) : List Layer :=
  [Layer.conv2d inp oup 1 1 0 1 false, Layer.batchNorm oup, Layer.activation]

/-- `SepConv_3x3(inp, oup)` of the source: depthwise
`Conv2d(inp, inp, 3, 1, 1, groups=inp, bias=False)`, `BatchNorm2d(inp)`,
activation, then pointwise `Conv2d(inp, oup, 1, 1, 0, bias=False)`,
`BatchNorm2d(oup)` (no trailing activation). -/
def SepConv_3x3 (inp oup : ℕ) : List Layer :=
  [Layer.conv2d inp inp 3 1 1 inp false, Layer.batchNorm inp, Layer.activation,
   Layer.conv2d inp oup 1 1 0 1 false, Layer.batchNorm oup]

/-- `self.conv` of `InvertedResidual.__init__`: pointwise expansion, depthwise
convolution, pointwise linear projection, with one scheduled regularization
tap after each of the three batch-normalization layers (taps A, B, C). -/
def invResConv (inp oup stride expand_ratio kernel : ℕ) (drop_prob : ℚ)
    (num_steps : ℕ) : List Layer :=
  [Layer.conv2d inp (inp * expand_ratio) 1 1 0 1 false,
   Layer.batchNorm (inp * expand_ratio),
   Layer.dropSched (dropTap drop_prob num_steps),
   Layer.activation,
   Layer.conv2d (inp * expand_ratio) (inp * expand_ratio) kernel stride (kernel / 2)
     (inp * expand_ratio) false,
   Layer.batchNorm (inp * expand_ratio),
   Layer.dropSched (dropTap drop_prob num_steps),
   Layer.activation,
   Layer.conv2d (inp * expand_ratio) oup 1 1 0 1 false,
   Layer.batchNorm oup,
   Layer.dropSched (dropTap drop_prob num_steps)]

/-- The state an `InvertedResidual` instance holds after construction:
`self.stride`, `self.use_res_connect`, `self.conv`, and `self.skip_drop`
(the latter is only assigned when `use_res_connect` holds, hence an
`Option`). -/
structure IRBlock where
  stride : ℕ
  use_res_connect : Bool
  conv : List Layer
  skip_drop : Option DropSchedCfg
deriving DecidableEq

/-- `InvertedResidual.__init__`. The source's `assert stride in [1, 2]`
becomes the error case; on success the record mirrors the attribute
assignments of the constructor, with `use_res_connect = (stride == 1 and
inp == oup)` and `skip_drop` (tap D) constructed exactly when that flag
holds. -/
def mkInvertedResidual (inp oup stride expand_ratio kernel : ℕ) (drop_prob : ℚ)
    (num_steps : ℕ) : Except String IRBlock :=
  if stride = 1 ∨ stride = 2 then
    Except.ok
      { stride := stride,
        use_res_connect := stride == 1 && inp == oup,
        conv := invResConv inp oup stride expand_ratio kernel drop_prob num_steps,
        skip_drop :=
          if stride == 1 && inp == oup then some (dropTap drop_prob num_steps) else none }
  else Except.error "assert stride in [1, 2] failed"

/-- One row `[t, c, n, s, k, dp]` of `self.interverted_residual_setting`:
expansion ratio, output channels, repeat count, stride, kernel size, drop
probability. -/
structure StageSpec where
  t : ℕ
  c : ℕ
  n : ℕ
  s : ℕ
  k : ℕ
  dp : ℚ
deriving DecidableEq

/-- The built-in stage table of `MnasNet.__init__`; the last three rows use
the configured `drop_prob`, the first three a literal `0`. -/
def interverted_residual_setting (drop_prob : ℚ) : List StageSpec :=
  [{ t := 3, c := 24, n := 3, s := 2, k := 3, dp := 0 },
   { t := 3, c := 40, n := 3, s := 2, k := 5, dp := 0 },
   { t := 6, c := 80, n := 3, s := 2, k := 5, dp := 0 },
   { t := 6, c := 96, n := 2, s := 1, k := 3, dp := drop_prob },
   { t := 6, c := 192, n := 4, s := 2, k := 5, dp := drop_prob },
   { t := 6, c := 320, n := 1, s := 1, k := 3, dp := drop_prob }]

/-- Derived per-block configuration produced by the architecture loop. -/
structure BlockCfg where
  inp : ℕ
  oup : ℕ
  stride : ℕ
  t : ℕ
  k : ℕ
  dp : ℚ
deriving DecidableEq

/-- The inner loop `for i in range(n)` of `MnasNet.__init__` for one stage:
block `i = 0` takes the incoming channel count and the stage stride, every
later block takes the stage's scaled output channels as input and stride 1
(after the first iteration the source sets `input_channel = output_channel`).
Returns the blocks of the stage together with the running channel count
after the stage. -/
def genStage (width_mult : ℚ) (sp : StageSpec) (input_channel : ℕ) :
    List BlockCfg × ℕ :=
  let oc := output_channel sp.c width_mult
  ((List.range sp.n).map fun i =>
      { inp := if i = 0 then input_channel else oc,
        oup := oc,
        stride := if i = 0 then sp.s else 1,
        t := sp.t,
        k := sp.k,
        dp := sp.dp },
   oc)

/-- The outer loop `for t, c, n, s, k, dp in self.interverted_residual_setting`
of `MnasNet.__init__`: stages are expanded in table order, the running
channel count after a stage feeding the next stage. -/
def genBody (width_mult : ℚ) : List StageSpec → ℕ → List BlockCfg × ℕ
  | [], input_channel => ([], input_channel)
  | sp :: rest, input_channel =>
      let p := genStage width_mult sp input_channel
      let q := genBody width_mult rest p.2
      (p.1 ++ q.1, q.2)

/-- Constructs the `InvertedResidual` instances for a list of derived block
configurations; any failing constructor assertion aborts the whole
construction (Python construction is all-or-nothing). -/
def mkBlocks (num_steps : ℕ) : List BlockCfg → Except String (List IRBlock)
  | [] => Except.ok []
  | c :: rest =>
      match mkInvertedResidual c.inp c.oup c.stride c.t c.k c.dp num_steps with
      | Except.error e => Except.error e
      | Except.ok b =>
          match mkBlocks num_steps rest with
          | Except.error e => Except.error e
          | Except.ok bs => Except.ok (b :: bs)

/-- One element of the network's `self.features` sequence: either a plain
layer chain (the framing convolutions and the pooling) or an inverted
residual block. -/
inductive Block where
  | plain (layers : List Layer)
  | invRes (b : IRBlock)
deriving DecidableEq

/-- The state a `MnasNet` instance holds after construction: `last_channel`,
the `features` sequence, and the `classifier` sequence. -/
structure MnasNetM where
  last_channel : ℕ
  features : List Block
  classifier : List Layer
deriving DecidableEq

/-- `MnasNet.__init__`. The source's `assert input_size % 32 == 0` becomes
the error case. On success: two framing blocks (`Conv_3x3(3, int(32*wm), 2)`
and `SepConv_3x3(int(32*wm), 16)`), the inverted residual blocks generated
from the built-in table starting at 16 channels, the final
`Conv_1x1(running, last_channel)`, `AdaptiveAvgPool2d(1)`, and the
classifier `[Dropout(0.0), Linear(last_channel, n_class)]`. -/
def mkMnasNet (n_class input_size : ℕ) (width_mult drop_prob : ℚ)
    (num_steps : ℕ) : Except String MnasNetM :=
  if input_size % 32 = 0 then
    let input_channel := output_channel 32 width_mult
    let last_channel := last_channel_py width_mult
    let body := genBody width_mult (interverted_residual_setting drop_prob) 16
    match mkBlocks num_steps body.1 with
    | Except.error e => Except.error e
    | Except.ok blocks =>
        Except.ok
          { last_channel := last_channel,
            features :=
              [Block.plain (Conv_3x3 3 input_channel 2),
               Block.plain (SepConv_3x3 input_channel 16)] ++
              blocks.map Block.invRes ++
              [Block.plain (Conv_1x1 body.2 last_channel),
               Block.plain [Layer.adaptiveAvgPool 1]],
            classifier := [Layer.dropout 0, Layer.linear last_channel n_class] }
  else Except.error "assert input_size % 32 == 0 failed"

/-- The network built by the source's demo entry point: `MnasNet()` with all
defaults (`n_class=1000, input_size=224, width_mult=1., drop_prob=0.0,
num_steps=3e5`). -/
def defaultNet : MnasNetM :=
  (mkMnasNet 1000 224 1 0 300000).toOption.getD
    { last_channel := 0, features := [], classifier := [] }

/-- Interpretation of the external tensor primitives over a carrier type
`T`: the source consumes them as black boxes, so forward evaluation is
stated for an arbitrary interpretation. `dropSched` receives the training
flag and the current global step. -/
structure Interp (T : Type) where
  conv2d : ℕ → ℕ → ℕ → ℕ → ℕ → ℕ → Bool → T → T
  batchNorm : ℕ → T → T
  activation : T → T
  dropSched : DropSchedCfg → Bool → ℕ → T → T
  pool : ℕ → T → T
  dropout : ℚ → Bool → T → T
  linear : ℕ → ℕ → T → T
  view : ℕ → T → T
  add : T → T → T

/-- Value effect of one layer under an interpretation, at a given training
flag and global step. -/
def applyLayerP {T : Type} (I : Interp T) (training : Bool) (step : ℕ) :
    Layer → T → T
  | Layer.conv2d a b c d e f g => I.conv2d a b c d e f g
  | Layer.batchNorm c => I.batchNorm c
  | Layer.activation => I.activation
  | Layer.dropSched cfg => I.dropSched cfg training step
  | Layer.adaptiveAvgPool s => I.pool s
  | Layer.dropout p => I.dropout p training
  | Layer.linear a b => I.linear a b

/-- The global-step state threaded through a forward pass, instrumented with
the list of step values observed by the scheduler taps of the pass. -/
structure StepState where
  counter : ℕ
  observed : List ℕ
deriving DecidableEq

/-- Modelled from the spec: the missing external scheduler wrapper
(`DropBlockScheduled`, imported by the source but outside this repository's
source tree) is, per spec §6, a callable that is *given* the current global
step together with the input feature map; it reads the shared counter and
does not own or modify it. Accordingly a scheduler tap consumes
`counter` read-only (recording the observation), and every other layer
neither reads nor writes it. -/
def runLayer {T : Type} (I : Interp T) (training : Bool) (l : Layer)
    (p : T × StepState) : T × StepState :=
  (applyLayerP I training p.2.counter l p.1,
   match l with
   | Layer.dropSched _ =>
       { counter := p.2.counter, observed := p.2.observed ++ [p.2.counter] }
   | _ => p.2)

/-- Sequential application of a layer chain (an `nn.Sequential`). -/
def runLayers {T : Type} (I : Interp T) (training : Bool) (ls : List Layer)
    (p : T × StepState) : T × StepState :=
  ls.foldl (fun q l => runLayer I training l q) p

/-- `InvertedResidual.forward` / one `features` element: an inverted
residual block returns `self.skip_drop(x + self.conv(x))` when
`use_res_connect` holds and `self.conv(x)` otherwise; a plain element just
runs its chain. (`skip_drop` is only assigned when the flag holds; the
`getD` default is never reached for constructor-built blocks.) -/
def runBlock {T : Type} (I : Interp T) (training : Bool) :
    Block → T × StepState → T × StepState
  | Block.plain ls, p => runLayers I training ls p
  | Block.invRes b, p =>
      if b.use_res_connect then
        let q := runLayers I training b.conv p
        runLayer I training (Layer.dropSched (b.skip_drop.getD (dropTap 0 0)))
          (I.add p.1 q.1, q.2)
      else
        runLayers I training b.conv p

/-- `MnasNet.forward`: `x = self.features(x)`, then
`x = x.view(-1, self.last_channel)`, then `x = self.classifier(x)`.
The source forward contains no operation on a step counter; the state is
threaded through the layers, where only the (spec-modelled) scheduler taps
touch it, read-only. -/
def MnasNetM.forwardRun {T : Type} (net : MnasNetM) (I : Interp T)
    (training : Bool) (x : T) (s : StepState) : T × StepState :=
  let p1 := net.features.foldl (fun p b => runBlock I training b p) (x, s)
  runLayers I training net.classifier (I.view net.last_channel p1.1, p1.2)

/-- A concrete trivial interpretation over `ℤ`, used to evaluate the
embedding at concrete inputs. -/
def trivInterp : Interp ℤ :=
  { conv2d := fun _ _ _ _ _ _ _ x => x,
    batchNorm := fun _ x => x,
    activation := fun x => x,
    dropSched := fun _ _ _ x => x,
    pool := fun _ x => x,
    dropout := fun _ _ x => x,
    linear := fun _ _ x => x,
    view := fun _ x => x,
    add := fun a b => a + b }

/-- Relation between the step state before and after a piece of a forward
pass: the counter is unchanged and every new observation equals the
(unchanged) counter value. -/
def PreservesStep (s s' : StepState) : Prop :=
  s'.counter = s.counter ∧ ∀ v ∈ s'.observed, v ∈ s.observed ∨ v = s.counter

/-- Training-mode semantics of `nn.Dropout(p)` on a feature vector, with the
randomness source made explicit: coordinate `i` is zeroed when `r i < p`
and scaled by `1/(1-p)` otherwise (inverted dropout). -/
def dropoutTrain (p : ℚ) (r : ℕ → ℚ) (x : ℕ → ℚ) : ℕ → ℚ :=
  fun i => if r i < p then 0 else (1 - p)⁻¹ * x i

/-- Training-mode run of the classifier chain on a concrete feature vector:
`Dropout` layers use `dropoutTrain` with the explicit randomness source `r`,
the `Linear` layer is an arbitrary map `L` (an external black box), every
other layer is inert in the classifier. -/
def runClassifier (L : (ℕ → ℚ) → ℕ → ℚ) (r : ℕ → ℚ) :
    List Layer → (ℕ → ℚ) → (ℕ → ℚ)
  | [], x => x
  | Layer.dropout p :: rest, x => runClassifier L r rest (dropoutTrain p r x)
  | Layer.linear _ _ :: rest, x => runClassifier L r rest (L x)
  | _ :: rest, x => runClassifier L r rest x

/-- Modelled from the spec: the scaled channel count as the spec words it,
`round(output_channels × width_multiplier)` with standard round-half rules
(spec §4.3, §8). Stated for comparison with the source's `output_channel`. -/
def specScaledOutput (c : ℕ) (width_mult : ℚ) : ℤ := round ((c : ℚ) * width_mult)

/-- Modelled from the spec: `last_channel_width = round(1280×width_multiplier)
if width_multiplier > 1 else 1280` (spec §4.3 step 6). Stated for comparison
with the source's `last_channel_py`. -/
def specLastChannel (width_mult : ℚ) : ℤ :=
  if 1 < width_mult then round ((1280 : ℚ) * width_mult) else 1280

/-- Extracts the scheduler-tap configuration of a layer, when it is one. -/
def tapOf : Layer → Option DropSchedCfg
  | Layer.dropSched cfg => some cfg
  | _ => none

/-- A concrete inverted residual block: `InvertedResidual(16, 16, 1, 3, 3)`
with `drop_prob=0`, `num_steps=3e5` (the first block of stage 4 of the
default network has this shape up to channel width). -/
def b16 : IRBlock :=
  (mkInvertedResidual 16 16 1 3 3 0 300000).toOption.getD
    { stride := 0, use_res_connect := false, conv := [], skip_drop := none }

/-- The configuration the architecture loop gives the first block of a
stage (`i == 0`): incoming channels, stage stride. -/
def firstCfg (wm : ℚ) (sp : StageSpec) (ic : ℕ) : BlockCfg :=
  { inp := ic, oup := output_channel sp.c wm, stride := sp.s,
    t := sp.t, k := sp.k, dp := sp.dp }

/-- The configuration the architecture loop gives every later block of a
stage (`i > 0`): scaled output channels on both sides, stride 1. -/
def restCfg (wm : ℚ) (sp : StageSpec) : BlockCfg :=
  { inp := output_channel sp.c wm, oup := output_channel sp.c wm, stride := 1,
    t := sp.t, k := sp.k, dp := sp.dp }

section Lemmas

/-- On a nonnegative rational, Python truncation agrees with the floor. -/
theorem pyInt_eq_floor {q : ℚ} (h : 0 ≤ q) : pyInt q = ⌊q⌋ := by
  simp [pyInt, h]

/-- For a nonnegative width multiplier the scaled channel count is the floor
of the exact product. -/
theorem output_channel_cast (c : ℕ) (wm : ℚ) (h : 0 ≤ wm) :
    (output_channel c wm : ℤ) = ⌊(c : ℚ) * wm⌋ := by
  have hq : (0 : ℚ) ≤ (c : ℚ) * wm := mul_nonneg (by positivity) h
  rw [output_channel, pyInt_eq_floor hq]
  exact Int.toNat_of_nonneg (Int.floor_nonneg.mpr hq)

/-- A map of a constant function over `range` is a `replicate`. -/
theorem map_range_const {α : Type} (m : ℕ) (a : α) :
    (List.range m).map (fun _ => a) = List.replicate m a := by
  rw [show (fun _ => a) = Function.const ℕ a from rfl, List.map_const, List.length_range]

/-- Closed form of one expanded stage: the first block takes the incoming
channels and the stage stride, the remaining `n - 1` blocks take the scaled
output channels on both sides and stride 1. -/
theorem genStage_eq (wm : ℚ) (sp : StageSpec) (ic m : ℕ) (hn : sp.n = m + 1) :
    (genStage wm sp ic).1 = firstCfg wm sp ic :: List.replicate m (restCfg wm sp) := by
  rw [← map_range_const m (restCfg wm sp)]
  simp only [genStage, hn, List.range_succ_eq_map, List.map_cons, List.map_map]
  rfl

/-- Every block of a stage outputs the stage's scaled channel count. -/
theorem genStage_oup (wm : ℚ) (sp : StageSpec) (ic : ℕ) :
    ∀ cfg ∈ (genStage wm sp ic).1, cfg.oup = output_channel sp.c wm := by
  intro cfg hc
  simp only [genStage, List.mem_map] at hc
  obtain ⟨i, _, rfl⟩ := hc
  rfl

/-- Every block of a stage uses the stage stride or stride 1. -/
theorem genStage_stride (wm : ℚ) (sp : StageSpec) (ic : ℕ) :
    ∀ cfg ∈ (genStage wm sp ic).1, cfg.stride = sp.s ∨ cfg.stride = 1 := by
  intro cfg hc
  simp only [genStage, List.mem_map] at hc
  obtain ⟨i, _, rfl⟩ := hc
  by_cases h : i = 0 <;> simp [h]

/-- A chain holds on an element followed by copies of a related element. -/
theorem chain'_cons_replicate {α : Type} (R : α → α → Prop) (m : ℕ) (b : α)
    (hbb : R b b) : ∀ a, R a b → List.Chain' R (a :: List.replicate m b) := by
  induction m with
  | zero => intro a _; simp
  | succ j ih =>
      intro a hab
      rw [List.replicate_succ]
      exact List.Chain'.cons hab (ih b hbb)

/-- A nonempty stage chains internally: each later block consumes the
channel count the previous one produced. -/
theorem genStage_chain (wm : ℚ) (sp : StageSpec) (ic : ℕ) :
    List.Chain' (fun a b => b.inp = a.oup) (genStage wm sp ic).1 := by
  rcases hn : sp.n with _ | m
  · simp [genStage, hn]
  · rw [genStage_eq wm sp ic m hn]
    exact chain'_cons_replicate (fun a b => b.inp = a.oup) m (restCfg wm sp) rfl
      (firstCfg wm sp ic) rfl

/-- Membership of the last element. -/
theorem mem_of_getLast?M {α : Type} {l : List α} {a : α} (h : a ∈ l.getLast?) :
    a ∈ l := by
  obtain ⟨h', rfl⟩ := List.mem_getLast?_eq_getLast h
  exact List.getLast_mem h'

/-- The first generated block of the body consumes the incoming channel
count, provided every stage repeats at least once. -/
theorem genBody_head_inp (wm : ℚ) (table : List StageSpec) (ic : ℕ)
    (h : ∀ sp ∈ table, 1 ≤ sp.n) :
    ∀ cfg ∈ (genBody wm table ic).1.head?, cfg.inp = ic := by
  induction table generalizing ic with
  | nil => intro cfg hc; simp [genBody] at hc
  | cons sp rest _ =>
      intro cfg hc
      have h1 : 1 ≤ sp.n := h sp (List.mem_cons_self sp rest)
      obtain ⟨m, hm⟩ : ∃ m, sp.n = m + 1 :=
        ⟨sp.n - 1, by omega⟩
      simp only [genBody] at hc
      rw [genStage_eq wm sp ic m hm] at hc
      simp only [List.cons_append, List.head?_cons, Option.mem_def,
        Option.some.injEq] at hc
      rw [← hc]
      rfl

/-- The whole generated body chains: the input channel count of every block
equals the output channel count of its predecessor. -/
theorem genBody_chain (wm : ℚ) (table : List StageSpec) (ic : ℕ)
    (h : ∀ sp ∈ table, 1 ≤ sp.n) :
    List.Chain' (fun a b => b.inp = a.oup) (genBody wm table ic).1 := by
  induction table generalizing ic with
  | nil => simp [genBody]
  | cons sp rest ih =>
      simp only [genBody]
      refine List.Chain'.append (genStage_chain wm sp ic)
        (ih _ (fun q hq => h q (List.mem_cons_of_mem sp hq))) ?_
      intro x hx y hy
      have hx' : x.oup = output_channel sp.c wm :=
        genStage_oup wm sp ic x (mem_of_getLast?M hx)
      have hy' : y.inp = output_channel sp.c wm := by
        have := genBody_head_inp wm rest (genStage wm sp ic).2
          (fun q hq => h q (List.mem_cons_of_mem sp hq)) y hy
        simpa [genStage] using this
      rw [hx', hy']

/-- Every block configuration of the generated body draws its stride from
some stage of the table (the stage stride or the literal 1). -/
theorem genBody_stride (wm : ℚ) (table : List StageSpec) (ic : ℕ) :
    ∀ cfg ∈ (genBody wm table ic).1, ∃ sp ∈ table, cfg.stride = sp.s ∨ cfg.stride = 1 := by
  induction table generalizing ic with
  | nil => intro cfg hc; simp [genBody] at hc
  | cons sp rest ih =>
      intro cfg hc
      simp only [genBody, List.mem_append] at hc
      rcases hc with hc | hc
      · exact ⟨sp, List.mem_cons_self sp rest, genStage_stride wm sp ic cfg hc⟩
      · obtain ⟨q, hq, hq'⟩ := ih (genStage wm sp ic).2 cfg hc
        exact ⟨q, List.mem_cons_of_mem sp hq, hq'⟩

/-- Every stride of the built-in table is 1 or 2. -/
theorem setting_strides (dp : ℚ) :
    ∀ sp ∈ interverted_residual_setting dp, sp.s = 1 ∨ sp.s = 2 := by
  intro sp h
  simp only [interverted_residual_setting, List.mem_cons, List.mem_singleton,
    List.not_mem_nil, or_false] at h
  rcases h with rfl | rfl | rfl | rfl | rfl | rfl <;> simp

/-- Block construction succeeds on a configuration list whose strides all
pass the constructor assertion. -/
theorem mkBlocks_isOk (ns : ℕ) (cfgs : List BlockCfg)
    (h : ∀ c ∈ cfgs, c.stride = 1 ∨ c.stride = 2) :
    ∃ bs, mkBlocks ns cfgs = Except.ok bs := by
  induction cfgs with
  | nil => exact ⟨[], rfl⟩
  | cons c rest ih =>
      obtain ⟨bs, hbs⟩ := ih (fun q hq => h q (List.mem_cons_of_mem c hq))
      have hc := h c (List.mem_cons_self c rest)
      simp only [mkBlocks, mkInvertedResidual, if_pos hc, hbs]
      exact ⟨_, rfl⟩

/-- Step preservation is reflexive. -/
theorem PreservesStep.refl' (s : StepState) : PreservesStep s s :=
  ⟨rfl, fun _ hv => Or.inl hv⟩

/-- Step preservation composes. -/
theorem PreservesStep.trans' {s1 s2 s3 : StepState}
    (h12 : PreservesStep s1 s2) (h23 : PreservesStep s2 s3) : PreservesStep s1 s3 := by
  refine ⟨h23.1.trans h12.1, fun v hv => ?_⟩
  rcases h23.2 v hv with hm | he
  · exact h12.2 v hm
  · exact Or.inr (he.trans h12.1)

/-- A single layer leaves the counter unchanged; a scheduler tap records the
(unchanged) counter value, every other layer records nothing. -/
theorem runLayer_pres {T : Type} (I : Interp T) (tr : Bool) (l : Layer)
    (p : T × StepState) : PreservesStep p.2 (runLayer I tr l p).2 := by
  cases l with
  | dropSched cfg =>
      refine ⟨rfl, fun v hv => ?_⟩
      rcases List.mem_append.mp hv with hm | hm
      · exact Or.inl hm
      · exact Or.inr (List.mem_singleton.mp hm)
  | conv2d a b c d e f g => exact PreservesStep.refl' _
  | batchNorm c => exact PreservesStep.refl' _
  | activation => exact PreservesStep.refl' _
  | adaptiveAvgPool s => exact PreservesStep.refl' _
  | dropout q => exact PreservesStep.refl' _
  | linear a b => exact PreservesStep.refl' _

/-- A layer chain leaves the counter unchanged and only records it. -/
theorem runLayers_pres {T : Type} (I : Interp T) (tr : Bool) (ls : List Layer) :
    ∀ p : T × StepState, PreservesStep p.2 (runLayers I tr ls p).2 := by
  induction ls with
  | nil => intro p; exact PreservesStep.refl' _
  | cons l rest ih =>
      intro p
      exact PreservesStep.trans' (runLayer_pres I tr l p) (ih (runLayer I tr l p))

/-- A layer chain leaves the counter unchanged. -/
theorem runLayers_counter {T : Type} (I : Interp T) (tr : Bool) (ls : List Layer)
    (p : T × StepState) : (runLayers I tr ls p).2.counter = p.2.counter :=
  (runLayers_pres I tr ls p).1

/-- A features element leaves the counter unchanged and only records it. -/
theorem runBlock_pres {T : Type} (I : Interp T) (tr : Bool) (b : Block)
    (p : T × StepState) : PreservesStep p.2 (runBlock I tr b p).2 := by
  cases b with
  | plain ls => exact runLayers_pres I tr ls p
  | invRes ir =>
      by_cases hrc : ir.use_res_connect = true
      · simp only [runBlock, if_pos hrc]
        exact PreservesStep.trans' (runLayers_pres I tr ir.conv p)
          (runLayer_pres I tr _ _)
      · simp only [runBlock, if_neg hrc]
        exact runLayers_pres I tr ir.conv p

/-- The whole features sequence leaves the counter unchanged and only
records it. -/
theorem runBlocks_pres {T : Type} (I : Interp T) (tr : Bool) (bs : List Block) :
    ∀ p : T × StepState,
      PreservesStep p.2 (bs.foldl (fun q b => runBlock I tr b q) p).2 := by
  induction bs with
  | nil => intro p; exact PreservesStep.refl' _
  | cons b rest ih =>
      intro p
      exact PreservesStep.trans' (runBlock_pres I tr b p) (ih (runBlock I tr b p))

/-- A full forward pass leaves the counter unchanged, and every step value
a scheduler tap observes during the pass is the initial counter value. -/
theorem forwardRun_pres {T : Type} (net : MnasNetM) (I : Interp T) (tr : Bool)
    (x : T) (s : StepState) : PreservesStep s (net.forwardRun I tr x s).2 := by
  have h1 := runBlocks_pres I tr net.features (x, s)
  exact PreservesStep.trans' h1 (runLayers_pres I tr net.classifier _)

/-- Forward of a shortcut block: tap D applied, at the incoming counter
value, to the sum of the input and the value of the convolution chain. -/
theorem runBlock_invRes_true {T : Type} (I : Interp T) (tr : Bool) (b : IRBlock)
    (hrc : b.use_res_connect = true) (cfg : DropSchedCfg)
    (hskip : b.skip_drop = some cfg) (x : T) (s : StepState) :
    (runBlock I tr (Block.invRes b) (x, s)).1 =
      I.dropSched cfg tr s.counter (I.add x (runLayers I tr b.conv (x, s)).1) := by
  simp only [runBlock, if_pos hrc, hskip, Option.getD_some, runLayer, applyLayerP]
  rw [runLayers_counter]

/-- Forward of a non-shortcut block: just the convolution chain. -/
theorem runBlock_invRes_false {T : Type} (I : Interp T) (tr : Bool) (b : IRBlock)
    (hrc : b.use_res_connect = false) (x : T) (s : StepState) :
    (runBlock I tr (Block.invRes b) (x, s)).1 = (runLayers I tr b.conv (x, s)).1 := by
  simp only [runBlock, hrc]
  simp

end Lemmas

/-- C2 (amended): for every output channel count and every nonnegative
width multiplier, the architecture generator computes the stage's scaled
output channel count as `int(output_channels × width_multiplier)`, i.e.
truncation toward zero — equal to the floor of the exact product — with no
alignment enforcement, and every block of a stage receives this value as
its output channel count; in particular width_multiplier = 0.5 applied to
output_channels = 24 yields 12. -/
theorem C2_scaled_channels (c : ℕ) (wm : ℚ) (h : 0 ≤ wm) :
    (output_channel c wm : ℤ) = ⌊(c : ℚ) * wm⌋ ∧
    output_channel 24 (1/2) = 12 ∧
    ∀ (sp : StageSpec) (ic : ℕ), ∀ cfg ∈ (genStage wm sp ic).1,
      cfg.oup = output_channel sp.c wm := by
  refine ⟨output_channel_cast c wm h, ?_, genStage_oup wm⟩
  norm_num [output_channel, pyInt]
  omega

/-- C2 witness: the amended statement at the concrete rounding instance the
spec names, `0.5 × 24 → 12`. -/
theorem C2_scaled_channels_witness :
    (output_channel 24 (1/2) : ℤ) = ⌊(24 : ℚ) * (1/2)⌋ ∧
    output_channel 24 (1/2) = 12 :=
  ⟨(C2_scaled_channels 24 (1/2) (by norm_num)).1,
   (C2_scaled_channels 24 (1/2) (by norm_num)).2.1⟩

/-- C2 counterexample: the claim as stated says the scaled count follows
standard round-half rounding. On the table's second stage
(`output_channels = 40`) with width multiplier 11/16 the exact product is
27.5; the source computes `int(27.5) = 27`, while round-half rounding
(here Mathlib's `round`, which rounds 27.5 to 28; round-half-even agrees)
gives 28. -/
theorem C2_round_counterexample :
    (output_channel 40 (11/16) : ℤ) ≠ specScaledOutput 40 (11/16) := by
  norm_num [output_channel, pyInt, specScaledOutput, round_eq]

/-- C3: for every constructed inverted residual block, `use_res_connect`
holds exactly when the stride is 1 and the input and output channel counts
coincide, and this flag is the sole branch condition of the block's
forward: with the flag the output is tap D applied to the sum of the input
and the convolution chain, without it the output is the chain alone. -/
theorem C3_use_res_connect_iff (inp oup stride t k : ℕ) (dp : ℚ) (ns : ℕ)
    (b : IRBlock) (h : mkInvertedResidual inp oup stride t k dp ns = Except.ok b) :
    (b.use_res_connect = true ↔ stride = 1 ∧ inp = oup) ∧
    ∀ (T : Type) (I : Interp T) (training : Bool) (x : T) (s : StepState),
      (runBlock I training (Block.invRes b) (x, s)).1 =
        if b.use_res_connect then
          I.dropSched (dropTap dp ns) training s.counter
            (I.add x (runLayers I training b.conv (x, s)).1)
        else (runLayers I training b.conv (x, s)).1 := by
  rw [mkInvertedResidual] at h
  by_cases hst : stride = 1 ∨ stride = 2
  · rw [if_pos hst] at h
    injection h with h'
    have hu : b.use_res_connect = (stride == 1 && inp == oup) := by rw [← h']
    have hs : b.skip_drop =
        (if stride == 1 && inp == oup then some (dropTap dp ns) else none) := by
      rw [← h']
    constructor
    · rw [hu]
      simp [Bool.and_eq_true, beq_iff_eq]
    · intro T I training x s
      by_cases hb : (stride == 1 && inp == oup) = true
      · rw [if_pos (hu.trans hb)]
        exact runBlock_invRes_true I training b (hu.trans hb) (dropTap dp ns)
          (hs.trans (if_pos hb)) x s
      · have hb' : (stride == 1 && inp == oup) = false := by
          exact Bool.not_eq_true _ ▸ hb
        rw [if_neg (by rw [hu, hb']; exact Bool.false_ne_true)]
        exact runBlock_invRes_false I training b (hu.trans hb') x s
  · rw [if_neg hst] at h
    exact absurd h (by simp)

/-- C3 witness: the block `InvertedResidual(16, 16, 1, 3, 3)` has the
shortcut flag set, matching `1 = 1 ∧ 16 = 16`. -/
theorem C3_use_res_connect_iff_witness : b16.use_res_connect = true ↔ 1 = 1 ∧ 16 = 16 :=
  (C3_use_res_connect_iff 16 16 1 3 3 0 300000 b16 rfl).1

/-- C4: for every constructed inverted residual block, when `use_res_connect`
holds the block owns tap D (`skip_drop`) and its forward returns tap D
applied to the sum of the input and the convolution chain's value — the tap
acts on the sum, not on either branch — and when the flag does not hold the
block owns no tap D and the forward returns the convolution chain's value
alone; this is the block's sole branching behavior. -/
theorem C4_forward_contract (inp oup stride t k : ℕ) (dp : ℚ) (ns : ℕ)
    (b : IRBlock) (h : mkInvertedResidual inp oup stride t k dp ns = Except.ok b) :
    (b.use_res_connect = true →
      b.skip_drop = some (dropTap dp ns) ∧
      ∀ (T : Type) (I : Interp T) (training : Bool) (x : T) (s : StepState),
        (runBlock I training (Block.invRes b) (x, s)).1 =
          I.dropSched (dropTap dp ns) training s.counter
            (I.add x (runLayers I training b.conv (x, s)).1)) ∧
    (b.use_res_connect = false →
      b.skip_drop = none ∧
      ∀ (T : Type) (I : Interp T) (training : Bool) (x : T) (s : StepState),
        (runBlock I training (Block.invRes b) (x, s)).1 =
          (runLayers I training b.conv (x, s)).1) := by
  rw [mkInvertedResidual] at h
  by_cases hst : stride = 1 ∨ stride = 2
  · rw [if_pos hst] at h
    injection h with h'
    have hu : b.use_res_connect = (stride == 1 && inp == oup) := by rw [← h']
    have hs : b.skip_drop =
        (if stride == 1 && inp == oup then some (dropTap dp ns) else none) := by
      rw [← h']
    constructor
    · intro hrc
      have hb : (stride == 1 && inp == oup) = true := hu.symm.trans hrc
      refine ⟨hs.trans (if_pos hb), fun T I training x s => ?_⟩
      exact runBlock_invRes_true I training b hrc (dropTap dp ns)
        (hs.trans (if_pos hb)) x s
    · intro hrc
      have hb : ¬((stride == 1 && inp == oup) = true) := by
        rw [← hu, hrc]; exact Bool.false_ne_true
      refine ⟨hs.trans (if_neg hb), fun T I training x s => ?_⟩
      exact runBlock_invRes_false I training b hrc x s
  · rw [if_neg hst] at h
    exact absurd h (by simp)

/-- C4 witness: the shortcut block `InvertedResidual(16, 16, 1, 3, 3)` owns
tap D with the block's drop probability and step budget. -/
theorem C4_forward_contract_witness : b16.skip_drop = some (dropTap 0 300000) :=
  ((C4_forward_contract 16 16 1 3 3 0 300000 b16 rfl).1 rfl).1

/-- C5: within every stage that repeats, only the first generated block
uses the stage's configured stride and all later blocks use stride 1
(the stride list of a stage with `n = m + 1` repeats is
`s :: replicate m 1`); every block of a stage outputs the stage's scaled
channel count; and for every table whose stages all repeat at least once,
the generated sequence chains — the input channel count of each block
equals the output channel count of its predecessor. -/
theorem C5_stage_expansion :
    (∀ (wm : ℚ) (sp : StageSpec) (ic m : ℕ), sp.n = m + 1 →
        (genStage wm sp ic).1.map (fun c => c.stride) = sp.s :: List.replicate m 1) ∧
    (∀ (wm : ℚ) (sp : StageSpec) (ic : ℕ), ∀ cfg ∈ (genStage wm sp ic).1,
        cfg.oup = output_channel sp.c wm) ∧
    (∀ (wm : ℚ) (table : List StageSpec) (ic : ℕ), (∀ sp ∈ table, 1 ≤ sp.n) →
        List.Chain' (fun a b => b.inp = a.oup) (genBody wm table ic).1) := by
  refine ⟨?_, genStage_oup, genBody_chain⟩
  intro wm sp ic m hm
  rw [genStage_eq wm sp ic m hm, List.map_cons, List.map_replicate]
  rfl

/-- C5 witness: the first stage of the default table (3 repeats, stride 2)
yields strides `[2, 1, 1]`, and the default table's full body chains. -/
theorem C5_stage_expansion_witness :
    ((genStage 1 { t := 3, c := 24, n := 3, s := 2, k := 3, dp := 0 } 16).1.map
        (fun c => c.stride) = 2 :: List.replicate 2 1) ∧
    List.Chain' (fun a b => b.inp = a.oup)
      (genBody 1 (interverted_residual_setting 0) 16).1 :=
  ⟨C5_stage_expansion.1 1 { t := 3, c := 24, n := 3, s := 2, k := 3, dp := 0 } 16 2 rfl,
   C5_stage_expansion.2.2 1 (interverted_residual_setting 0) 16 (by decide)⟩

/-- C6: construction fails (the Python `assert`, modelled as the error case
of `Except`, making construction all-or-nothing) exactly when the stride
passed to an inverted residual block is not 1 or 2, respectively exactly
when the input spatial size passed to the network is not divisible by 32;
in particular the network constructor succeeds for every width multiplier,
drop probability and step budget whenever the size check passes, because
every stride the built-in table feeds to a block is 1 or 2. -/
theorem C6_construction_asserts :
    (∀ (inp oup stride t k : ℕ) (dp : ℚ) (ns : ℕ),
        (mkInvertedResidual inp oup stride t k dp ns).isOk = true ↔
          (stride = 1 ∨ stride = 2)) ∧
    (∀ (n_class input_size : ℕ) (wm dp : ℚ) (ns : ℕ),
        (mkMnasNet n_class input_size wm dp ns).isOk = true ↔
          input_size % 32 = 0) := by
  constructor
  · intro inp oup stride t k dp ns
    rw [mkInvertedResidual]
    by_cases h : stride = 1 ∨ stride = 2
    · rw [if_pos h]
      simpa [Except.isOk, Except.toBool] using h
    · rw [if_neg h]
      simpa [Except.isOk, Except.toBool] using h
  · intro n_class input_size wm dp ns
    by_cases h : input_size % 32 = 0
    · have hstrides : ∀ c ∈ (genBody wm (interverted_residual_setting dp) 16).1,
          c.stride = 1 ∨ c.stride = 2 := by
        intro c hc
        obtain ⟨sp, hsp, hstr⟩ :=
          genBody_stride wm (interverted_residual_setting dp) 16 c hc
        rcases hstr with h1 | h1
        · rcases setting_strides dp sp hsp with h2 | h2
          · exact Or.inl (h1.trans h2)
          · exact Or.inr (h1.trans h2)
        · exact Or.inl h1
      obtain ⟨bs, hbs⟩ := mkBlocks_isOk ns
        (genBody wm (interverted_residual_setting dp) 16).1 hstrides
      simp only [mkMnasNet, if_pos h, hbs]
      exact ⟨fun _ => h, fun _ => rfl⟩
    · rw [mkMnasNet, if_neg h]
      simpa [Except.isOk, Except.toBool] using h

/-- Helper for reading off the tail of the features sequence. -/
theorem drop_sub_two {α : Type} (A B : List α) (hB : B.length = 2) :
    (A ++ B).drop ((A ++ B).length - 2) = B := by
  rw [List.length_append, hB, Nat.add_sub_cancel]
  exact List.drop_left A B


/-- C7 (amended): every constructed network's `last_channel` is
`int(1280 × width_multiplier)` — truncation toward zero, not round-half —
when the multiplier exceeds 1, and the literal 1280 otherwise; the features
sequence ends with the 1×1 convolution from the body's running channel
count to `last_channel` followed by the global average pooling; the
classifier maps a `last_channel`-long vector to `n_class` logits through
`Linear(last_channel, n_class)`; and at width multiplier 1 the value is
1280. -/
theorem C7_head_structure (n_class input_size : ℕ) (wm dp : ℚ) (ns : ℕ)
    (net : MnasNetM) (h : mkMnasNet n_class input_size wm dp ns = Except.ok net) :
    net.last_channel = last_channel_py wm ∧
    net.features.drop (net.features.length - 2) =
      [Block.plain (Conv_1x1 (genBody wm (interverted_residual_setting dp) 16).2
        (last_channel_py wm)),
       Block.plain [Layer.adaptiveAvgPool 1]] ∧
    net.classifier = [Layer.dropout 0, Layer.linear (last_channel_py wm) n_class] ∧
    last_channel_py 1 = 1280 := by
  by_cases hin : input_size % 32 = 0
  · simp only [mkMnasNet, if_pos hin] at h
    cases hbs : mkBlocks ns (genBody wm (interverted_residual_setting dp) 16).1 with
    | error e => rw [hbs] at h; exact absurd h (by simp)
    | ok bs =>
        rw [hbs] at h
        injection h with h'
        subst h'
        refine ⟨rfl, ?_, rfl, by norm_num [last_channel_py]⟩
        dsimp only
        refine drop_sub_two _ _ ?_
        rfl
  · rw [mkMnasNet, if_neg hin] at h
    exact absurd h (by simp)

/-- C7 witness: the default network (`MnasNet()` with defaults) has
`last_channel = 1280` and the classifier `[Dropout(0.0), Linear(1280, 1000)]`,
so the final logit vector has length 1000. -/
theorem C7_head_structure_witness :
    defaultNet.last_channel = last_channel_py 1 ∧
    defaultNet.classifier = [Layer.dropout 0, Layer.linear (last_channel_py 1) 1000] ∧
    last_channel_py 1 = 1280 :=
  ⟨(C7_head_structure 1000 224 1 0 300000 defaultNet rfl).1,
   (C7_head_structure 1000 224 1 0 300000 defaultNet rfl).2.2.1,
   (C7_head_structure 1000 224 1 0 300000 defaultNet rfl).2.2.2⟩

/-- C7 counterexample: the claim as stated computes `last_channel_width` as
`round(1280 × width_multiplier)` for multipliers above 1. At width
multiplier 513/512 the exact product is 1282.5; the source computes
`int(1282.5) = 1282` while round-half rounding (Mathlib's `round`;
round-half-even agrees here) gives 1283. -/
theorem C7_round_counterexample :
    (last_channel_py (513/512) : ℤ) ≠ specLastChannel (513/512) := by
  norm_num [last_channel_py, output_channel, pyInt, specLastChannel, round_eq]

/-- C8: in the network's built-in stage table the configured base drop
probability appears exactly on the last three stages (output channels 96,
192 and 320) while the first three stages carry a literal 0 regardless of
the parameter, and consequently the generated body consists of 9 blocks
with drop probability 0 (stages of 3+3+3 repeats) followed by 7 blocks with
the configured probability (stages of 2+4+1 repeats), for every width
multiplier. -/
theorem C8_drop_prob_stages (dp wm : ℚ) :
    ((interverted_residual_setting dp).map (fun sp => (sp.c, sp.dp)) =
      [(24, 0), (40, 0), (80, 0), (96, dp), (192, dp), (320, dp)]) ∧
    (genBody wm (interverted_residual_setting dp) 16).1.map (fun c => c.dp) =
      List.replicate 9 0 ++ List.replicate 7 dp :=
  ⟨rfl, rfl⟩

/-- C9: in every constructed inverted residual block the scheduled
regularization taps of the convolution chain are exactly three copies of
the configuration with start probability 0, stop probability equal to the
block's drop probability, the shared step budget, and mask block size 7;
tap D carries the same configuration and exists exactly when the shortcut
flag holds. The conclusion holds for all constructor arguments, so the
block size 7 is not configurable through any constructor parameter. -/
theorem C9_tap_configuration (inp oup stride t k : ℕ) (dp : ℚ) (ns : ℕ)
    (b : IRBlock) (h : mkInvertedResidual inp oup stride t k dp ns = Except.ok b) :
    b.conv.filterMap tapOf = List.replicate 3 (dropTap dp ns) ∧
    b.skip_drop = (if b.use_res_connect then some (dropTap dp ns) else none) ∧
    (dropTap dp ns).block_size = 7 ∧ (dropTap dp ns).start_value = 0 ∧
    (dropTap dp ns).stop_value = dp ∧ (dropTap dp ns).nr_steps = ns := by
  rw [mkInvertedResidual] at h
  by_cases hst : stride = 1 ∨ stride = 2
  · rw [if_pos hst] at h
    injection h with h'
    have hcv : b.conv = invResConv inp oup stride t k dp ns := by rw [← h']
    have hu : b.use_res_connect = (stride == 1 && inp == oup) := by rw [← h']
    have hs : b.skip_drop =
        (if stride == 1 && inp == oup then some (dropTap dp ns) else none) := by
      rw [← h']
    refine ⟨?_, ?_, rfl, rfl, rfl, rfl⟩
    · rw [hcv]
      rfl
    · rw [hs, hu]
  · rw [if_neg hst] at h
    exact absurd h (by simp)

/-- C9 witness: the taps of the block `InvertedResidual(16, 16, 1, 3, 3)`
with `drop_prob = 0`, `num_steps = 3e5` are three copies of the expected
configuration. -/
theorem C9_tap_configuration_witness :
    b16.conv.filterMap tapOf = List.replicate 3 (dropTap 0 300000) :=
  (C9_tap_configuration 16 16 1 3 3 0 300000 b16 rfl).1

/-- C10: every constructed network's classifier is
`[Dropout(0.0), Linear(last_channel, n_class)]` — the dropout rate is the
literal 0 — and therefore, for every linear map, every randomness source
with nonnegative draws and every input vector, the training-mode run of the
classifier equals the linear map applied directly to the input: the dropout
is the identity even in training mode. -/
theorem C10_classifier_dropout (n_class input_size : ℕ) (wm dp : ℚ) (ns : ℕ)
    (net : MnasNetM) (h : mkMnasNet n_class input_size wm dp ns = Except.ok net) :
    net.classifier = [Layer.dropout 0, Layer.linear net.last_channel n_class] ∧
    ∀ (L : (ℕ → ℚ) → ℕ → ℚ) (r x : ℕ → ℚ), (∀ i, 0 ≤ r i) →
      runClassifier L r net.classifier x = L x := by
  have hcl : net.classifier = [Layer.dropout 0, Layer.linear net.last_channel n_class] := by
    by_cases hin : input_size % 32 = 0
    · simp only [mkMnasNet, if_pos hin] at h
      cases hbs : mkBlocks ns (genBody wm (interverted_residual_setting dp) 16).1 with
      | error e => rw [hbs] at h; exact absurd h (by simp)
      | ok bs =>
          rw [hbs] at h
          injection h with h'
          rw [← h']
    · rw [mkMnasNet, if_neg hin] at h
      exact absurd h (by simp)
  refine ⟨hcl, fun L r x hr => ?_⟩
  rw [hcl]
  simp only [runClassifier]
  have hx : dropoutTrain 0 r x = x := by
    funext i
    simp only [dropoutTrain]
    rw [if_neg (not_lt.mpr (hr i))]
    norm_num
  rw [hx]

/-- C10 witness: on the default network, the training-mode classifier run
with the identity linear map, the all-zero randomness source and the
all-one input returns the input unchanged. -/
theorem C10_classifier_dropout_witness :
    runClassifier (fun v => v) (fun _ => 0) defaultNet.classifier (fun _ => 1) =
      (fun v => v) (fun _ => (1 : ℚ)) :=
  (C10_classifier_dropout 1000 224 1 0 300000 defaultNet rfl).2
    (fun v => v) (fun _ => 0) (fun _ => 1) (fun _ => le_refl 0)

/-- C1 (amended): the source network neither owns nor increments a global
step counter: for every constructed network, any interpretation of the
tensor primitives, either training mode and any starting counter value, a
full forward pass leaves the counter unchanged, and every step value the
(spec-modelled, read-only) scheduler taps observe during the pass is that
one unchanged value — so all bindings of a pass trivially observe the same
value, but no once-per-pass increment exists anywhere in `MnasNet.forward`. -/
theorem C1_forward_no_increment (n_class input_size : ℕ) (wm dp : ℚ) (ns : ℕ)
    (net : MnasNetM) (_h : mkMnasNet n_class input_size wm dp ns = Except.ok net)
    (T : Type) (I : Interp T) (training : Bool) (x : T) (c : ℕ) :
    (net.forwardRun I training x ⟨c, []⟩).2.counter = c ∧
    ∀ v ∈ (net.forwardRun I training x ⟨c, []⟩).2.observed, v = c := by
  have hp := forwardRun_pres net I training x ⟨c, []⟩
  refine ⟨hp.1, fun v hv => ?_⟩
  rcases hp.2 v hv with hm | he
  · exact absurd hm (List.not_mem_nil v)
  · exact he

/-- C1 witness: a training-mode forward pass of the default network under
the trivial integer interpretation leaves a counter starting at 5 at 5. -/
theorem C1_forward_no_increment_witness :
    (defaultNet.forwardRun trivInterp true (0 : ℤ) ⟨5, []⟩).2.counter = 5 :=
  (C1_forward_no_increment 1000 224 1 0 300000 defaultNet rfl
    ℤ trivInterp true 0 5).1

/-- C1 counterexample: the claim as stated requires the counter to be
incremented exactly once per training-mode forward pass, so after one
training pass of the default network starting from counter 0 it would read
`0 + 1`; on the embedded source it still reads 0, because `MnasNet.forward`
contains no counter operation at all. -/
theorem C1_single_counter_counterexample :
    (defaultNet.forwardRun trivInterp true (0 : ℤ) ⟨0, []⟩).2.counter ≠ 0 + 1 := by
  have hp := forwardRun_pres defaultNet trivInterp true (0 : ℤ) ⟨0, []⟩
  rw [hp.1]
  decide
